import Mathlib

/-!
# GoImageRecognition: ranking, reporting, graph construction and label loading

A shallow embedding of `main.go`.  Go slices are lists (with an explicit capacity where
the slice expression `results[:5]` depends on it), `float32` values are IEEE 754 binary32
data split into sign, exponent and mantissa, a Go panic is the `error` side of `Except`,
and everything the program obtains from outside (the network, the file system, the
TensorFlow runtime) is a field of an environment record.
-/

namespace GoImageRecognition

/-! ## `float32` -/

/-- Go `float32`: an IEEE 754 binary32 datum, as sign bit, biased exponent and fraction. -/
structure Float32 where
  sign : Bool
  exponent : Fin 256
  mantissa : Fin 8388608
deriving DecidableEq, Repr

namespace Float32

/-- NaN: all exponent bits set and a non-zero fraction. -/
def isNaN (x : Float32) : Bool := x.exponent.val == 255 && x.mantissa.val != 0

/-- The absolute value in units of `2^-149`, the spacing of the subnormal numbers: the
fraction alone for a subnormal, the fraction with its hidden bit shifted by the exponent
otherwise.  An infinity (exponent 255, fraction 0) comes out above every finite value. -/
def units (x : Float32) : Nat :=
  if x.exponent.val = 0 then x.mantissa.val
  else (8388608 + x.mantissa.val) * 2 ^ (x.exponent.val - 1)

/-- The number a non-NaN datum stands for, in units of `2^-149`; `-0` and `+0` are both 0. -/
def value (x : Float32) : Int :=
  if x.sign then - (x.units : Int) else (x.units : Int)

/-- Go `x > y` on `float32`: false as soon as an operand is NaN. -/
def gt (x y : Float32) : Bool := !x.isNaN && !y.isNaN && decide (y.value < x.value)

/-- Go `x <= y` on `float32`: false as soon as an operand is NaN. -/
def le (x y : Float32) : Bool := !x.isNaN && !y.isNaN && decide (x.value ≤ y.value)

/-- Go `x == y` on `float32`: false as soon as an operand is NaN, true for `-0 == +0`. -/
def eq (x y : Float32) : Bool := !x.isNaN && !y.isNaN && decide (x.value = y.value)

/-- The zero value of the type, `+0`. -/
def zero : Float32 := ⟨false, 0, 0⟩

end Float32

/-! ## `Label`, `Labels` and the `sort.Interface` methods -/

/-- A Go run-time panic. -/
inductive Panic where
  | indexOutOfRange (index length : Nat)
  | sliceBoundsOutOfRange (high capacity : Nat)
  | typeAssertion
deriving DecidableEq, Repr

set_option linter.dupNamespace false in
/-- The struct `Label`. -/
structure Label where
  Label : String
  Probability : Float32
deriving DecidableEq, Repr

/-- The slice type `Labels`. -/
abbrev Labels := List Label

/-- The method `Labels.Len`. -/
def Labels.Len (l : Labels) : Nat := l.length

/-- The method `Labels.Swap`: `l[i], l[j] = l[j], l[i]`, panicking on an index out of range. -/
def Labels.Swap (l : Labels) (i j : Nat) : Except Panic Labels :=
  match l[i]?, l[j]? with
  | some a, some b => .ok ((l.set i b).set j a)
  | none, _ => .error (.indexOutOfRange i l.length)
  | _, none => .error (.indexOutOfRange j l.length)

/-- The method `Labels.Less`: `l[i].Probability > l[j].Probability`, panicking on an index
out of range. -/
def Labels.Less (l : Labels) (i j : Nat) : Except Panic Bool :=
  match l[i]?, l[j]? with
  | some a, some b => .ok (a.Probability.gt b.Probability)
  | none, _ => .error (.indexOutOfRange i l.length)
  | _, none => .error (.indexOutOfRange j l.length)

/-! ## `sort.Sort` -/

/-- The inner loop of the standard library's `insertionSort`,
`for j := i; j > 0 && data.Less(j, j-1); j-- { data.Swap(j, j-1) }`, started at `j`. -/
def insertionSortInner : Nat → Labels → Except Panic Labels
  | 0, data => .ok data
  | j + 1, data => do
    if (← data.Less (j + 1) j) then
      let data ← data.Swap (j + 1) j
      insertionSortInner j data
    else
      pure data

/-- The outer loop of `insertionSort`, `for i := 1; i < n; i++ { ... }`, entered at index
`i`; `fuel` bounds the number of iterations still to come. -/
def insertionSortOuter (n : Nat) : Nat → Nat → Labels → Except Panic Labels
  | 0, _, data => .ok data
  | fuel + 1, i, data =>
    if i < n then do
      let data ← insertionSortInner i data
      insertionSortOuter n fuel (i + 1) data
    else
      .ok data

/-- The standard library's `insertionSort(data, 0, n)` with `n := data.Len()`, driven by
`Len`, `Less` and `Swap` only.  It is all that `sort.Sort` does on a slice of at most six
elements in every release of the library (of at most twelve in the recent ones). -/
def insertionSort (data : Labels) : Except Panic Labels :=
  insertionSortOuter data.Len (data.Len - 1) 1 data

/-- `sort.Sort(Labels(results))` carried out by insertion sort.  A panic cannot occur (see
`insertionSort_ok`); the slice is left as it is in that unreachable case. -/
def sortByInsertion (data : Labels) : Labels :=
  match insertionSort data with
  | .ok sorted => sorted
  | .error _ => data

/-- No probability of the slice is NaN. -/
def NoNaN (l : Labels) : Prop := ∀ x ∈ l, x.Probability.isNaN = false

/-- The documented contract of `sort.Sort` for the `Labels` interface: the slice is
rearranged (only `Swap` touches it), and when `Less` is a consistent ordering, that is when
no probability is NaN, then afterwards `Less(j, i)` is false for all positions `i < j`. -/
def SortContract (sort : Labels → Labels) : Prop :=
  ∀ l : Labels, (sort l).Perm l ∧
    (NoNaN l → ∀ i j : Nat, i < j → j < (sort l).Len → (sort l).Less j i = .ok false)

/-! ## `getTopFiveLabels` -/

/-- A Go slice of `Label`: the visible elements and the capacity of the backing array. -/
structure Slice where
  elems : List Label
  cap : Nat
deriving DecidableEq, Repr

/-- The nil slice, the initial value of the named result `results`. -/
def Slice.nil : Slice := ⟨[], 0⟩

/-- Go `append(s, x)` for one element: in place while the capacity allows, otherwise into
a new backing array of doubled capacity, which is how the runtime grows a small slice
(capacities 1, 2, 4, 8 for the first appends to a nil slice of `Label`).  The program
depends on the capacity only through the bound of `results[:5]`. -/
def Slice.append (s : Slice) (x : Label) : Slice :=
  if s.elems.length < s.cap then ⟨s.elems ++ [x], s.cap⟩
  else ⟨s.elems ++ [x], if s.cap = 0 then 1 else 2 * s.cap⟩

/-- The loop of `getTopFiveLabels`:
`for i, p := range probabilities { if i >= len(labels) { break }; results = append(...) }`,
entered at index `i` with the probabilities not yet visited. -/
def collect (labels : List String) : Nat → List Float32 → Slice → Slice
  | _, [], results => results
  | i, p :: rest, results =>
    if h : i < labels.length then
      collect labels (i + 1) rest (results.append ⟨labels[i], p⟩)
    else
      results

/-- The slice `results` as it stands when `sort.Sort` is called. -/
def candidates (labels : List String) (probabilities : List Float32) : Slice :=
  collect labels 0 probabilities Slice.nil

/-- The zero value of `Label`, which fills a backing array beyond the slice length. -/
def zeroLabel : Label := ⟨"", Float32.zero⟩

/-- The slice expression `s[:high]`: bounded by the capacity, not the length. -/
def Slice.upTo (s : Slice) (high : Nat) : Except Panic (List Label) :=
  if high ≤ s.cap then
    .ok ((s.elems ++ List.replicate (s.cap - s.elems.length) zeroLabel).take high)
  else
    .error (.sliceBoundsOutOfRange high s.cap)

/-- The function `getTopFiveLabels`, over the sorting routine behind `sort.Sort`. -/
def getTopFiveLabels (sort : Labels → Labels) (labels : List String)
    (probabilities : List Float32) : Except Panic (List Label) :=
  let results := candidates labels probabilities
  let results : Slice := ⟨sort results.elems, results.cap⟩
  results.upTo 5

/-! ## Reporting -/

/-- One call `fmt.Printf("Label: %s, probability: %.2f%%\n", l.Label, l.Probability*100)`:
the text it writes.  The rendering of `l.Probability*100` under `%.2f` is `percent`. -/
def printfLabel (percent : Float32 → String) (l : Label) : String :=
  "Label: " ++ l.Label ++ ", probability: " ++ percent l.Probability ++ "%\n"

/-- The loop `for _, l := range topFiveLabels { fmt.Printf(...) }`: the writes to standard
output, in order. -/
def printLabels (percent : Float32 → String) (topFiveLabels : List Label) : List String :=
  topFiveLabels.map (printfLabel percent)

/-- Number of newline characters of a text. -/
def newlines (text : String) : Nat := text.data.count '\n'

/-- Number of lines that a sequence of writes puts on standard output. -/
def lineCount (writes : List String) : Nat := (writes.map newlines).sum

/-! ## The graph API of the TensorFlow binding -/

/-- The element types of the binding that the program names. -/
inductive DataType where
  | Float
  | Int32
  | String
  | Uint8
deriving DecidableEq, Repr

/-- A `tf.Output`: an operation, by its position in the graph (`none` for a nil operation),
and the index of one of its outputs. -/
structure Output where
  Op : Option Nat
  Index : Nat
deriving DecidableEq, Repr

/-- The Go values handed to `op.Const` in this program. -/
inductive ConstValue where
  | int32 (v : Int)
  | int32s (v : List Int)
  | float32 (v : Float32)
deriving DecidableEq, Repr

/-- Operation types with their attributes. -/
inductive OpKind where
  | Placeholder (dtype : DataType)
  | DecodeJpeg (channels : Nat)
  | Cast (DstT : DataType)
  | ExpandDims
  | ResizeBilinear
  | Sub
  | Const (value : ConstValue)
deriving DecidableEq, Repr

/-- The type name of an operation, which is also its default node name. -/
def OpKind.typeName : OpKind → String
  | .Placeholder _ => "Placeholder"
  | .DecodeJpeg _ => "DecodeJpeg"
  | .Cast _ => "Cast"
  | .ExpandDims => "ExpandDims"
  | .ResizeBilinear => "ResizeBilinear"
  | .Sub => "Sub"
  | .Const _ => "Const"

/-- A node of a graph. -/
structure Operation where
  name : String
  kind : OpKind
  inputs : List Output
deriving DecidableEq, Repr

/-- A `tf.Graph`: its nodes in the order of their creation. -/
abbrev Graph := List Operation

/-- The state shared by a scope and its sub-scopes: the graph under construction and the
first error met. -/
structure Scope where
  graph : Graph
  err : Option String
deriving DecidableEq, Repr

/-- The function `op.NewScope`. -/
def NewScope : Scope := ⟨[], none⟩

/-- The method `Scope.AddOperation` in the sub-scope `sub` (`""` for the root scope): no
node is added once an error is recorded, and a node name already in use records one. -/
def Scope.AddOperation (s : Scope) (sub : String) (kind : OpKind) (inputs : List Output) :
    Output × Scope :=
  if s.err.isSome then (⟨none, 0⟩, s)
  else
    let name := if sub = "" then kind.typeName else sub ++ "/" ++ kind.typeName
    if s.graph.any (fun o => o.name == name) then
      (⟨none, 0⟩, { s with err := some ("duplicate node name " ++ name) })
    else
      (⟨some s.graph.length, 0⟩, { s with graph := s.graph ++ [⟨name, kind, inputs⟩] })

/-- The method `Scope.Finalize`. -/
def Scope.Finalize (s : Scope) : Graph × Option String := (s.graph, s.err)

/-- The function `getNormalizedGraph`; the nested calls are laid out in Go's order of
evaluation. -/
def getNormalizedGraph : Graph × Output × Output × Option String :=
  let s := NewScope
  let (input, s) := s.AddOperation "" (.Placeholder .String) []
  let (decode, s) := s.AddOperation "" (.DecodeJpeg 3) [input]
  let (cast, s) := s.AddOperation "" (.Cast .Float) [decode]
  let (makeBatch, s) := s.AddOperation "make_batch" (.Const (.int32 0)) []
  let (expandDims, s) := s.AddOperation "" .ExpandDims [cast, makeBatch]
  let (size, s) := s.AddOperation "size" (.Const (.int32s [224, 224])) []
  let (resizeBilinear, s) := s.AddOperation "" .ResizeBilinear [expandDims, size]
  let (mean, s) := s.AddOperation "mean" (.Const (.float32 ⟨false, 133, 6946816⟩)) []
  let (output, s) := s.AddOperation "" .Sub [resizeBilinear, mean]
  let (graph, err) := s.Finalize
  (graph, input, output, err)

/-- A graph output read as an expression over placeholders and constants. -/
inductive Expr where
  | Placeholder (dtype : DataType)
  | Const (value : ConstValue)
  | DecodeJpeg (contents : Expr) (channels : Nat)
  | Cast (x : Expr) (DstT : DataType)
  | ExpandDims (input dim : Expr)
  | ResizeBilinear (images size : Expr)
  | Sub (x y : Expr)
deriving DecidableEq, Repr

/-- The expression computed at `out` in `g`, following input references at most `depth`
levels deep; `none` for a dangling reference or a node with the wrong number of inputs. -/
def Graph.expr (g : Graph) : Nat → Output → Option Expr
  | 0, _ => none
  | depth + 1, out =>
    match out.Op.bind (fun n => g[n]?) with
    | none => none
    | some node =>
      match node.kind, node.inputs with
      | .Placeholder dtype, [] => some (.Placeholder dtype)
      | .Const value, [] => some (.Const value)
      | .DecodeJpeg channels, [a] => (g.expr depth a).map (fun x => .DecodeJpeg x channels)
      | .Cast dst, [a] => (g.expr depth a).map (fun x => .Cast x dst)
      | .ExpandDims, [a, b] =>
        (g.expr depth a).bind (fun x => (g.expr depth b).map (fun y => .ExpandDims x y))
      | .ResizeBilinear, [a, b] =>
        (g.expr depth a).bind (fun x => (g.expr depth b).map (fun y => .ResizeBilinear x y))
      | .Sub, [a, b] =>
        (g.expr depth a).bind (fun x => (g.expr depth b).map (fun y => .Sub x y))
      | _, _ => none

/-- The method `Graph.Operation`: the node of that name, if any. -/
def Graph.Operation (g : Graph) (name : String) : Option Nat :=
  g.findIdx? (fun o => o.name == name)

/-! ## The outside world -/

/-- A byte sequence. -/
abbrev Bytes := List Nat

/-- A response body: the bytes a reader obtains from it, and the error, if any, that ends
the stream instead of a regular end. -/
structure Body where
  data : Bytes
  err : Option String
deriving DecidableEq, Repr

/-- A `tf.Tensor`, by the Go value it holds. -/
inductive Tensor where
  | string (value : Bytes)
  | matrix (rows : List (List Float32))
  | other
deriving DecidableEq, Repr

/-- An opened file as a line reader sees it: its lines in file order and, if a read fails
before the end is reached, the number of lines read by then together with the error. -/
structure File where
  lines : List String
  failure : Option (Nat × String)
deriving DecidableEq, Repr

/-- A `bufio.Scanner` run to the point where `Scan` returns false: the tokens `Text`
returned on the way, and what `Err` reports afterwards. -/
def File.scan (f : File) : List String × Option String :=
  match f.failure with
  | none => (f.lines, none)
  | some (n, e) => (f.lines.take n, some e)

/-- Everything a run obtains from outside the program. -/
structure Env where
  Args : List String
  httpGet : String → Except String Body
  readFile : String → Except String Bytes
  graphImport : Bytes → Except String Graph
  osOpen : String → Except String File
  newTensor : Bytes → Except String Tensor
  newSession : Graph → Except String Unit
  sessionRun : Graph → List (Output × Tensor) → Output → Except String Tensor

/-- The variable `graphFile`. -/
def graphFile : String := "/model/tensorflow_inception_graph.pb"

/-- The variable `labelsFile`. -/
def labelsFile : String := "/model/imagenet_comp_graph_label_strings.txt"

/-- The function `loadGraphAndLabels`.  The scanner's `Err` is not consulted. -/
def loadGraphAndLabels (env : Env) : Except String (Graph × List String) :=
  match env.readFile graphFile with
  | .error err => .error err
  | .ok model =>
    match env.graphImport model with
    | .error err => .error err
    | .ok g =>
      match env.osOpen labelsFile with
      | .error err => .error err
      | .ok f =>
        let labels := f.scan.1
        .ok (g, labels)

/-- The function `normalizeImage`.  The result of `io.Copy` is dropped, so the buffer
holds whatever was read. -/
def normalizeImage (env : Env) (body : Body) : Except String Tensor :=
  let buf := body.data
  match env.newTensor buf with
  | .error err => .error err
  | .ok t =>
    match getNormalizedGraph with
    | (_, _, _, some err) => .error err
    | (graph, input, output, none) =>
      match env.newSession graph with
      | .error err => .error err
      | .ok _ =>
        match env.sessionRun graph [(input, t)] output with
        | .error err => .error err
        | .ok normalized => .ok normalized

/-! ## `main` -/

/-- The stages of `main`. -/
inductive Stage where
  | arguments
  | fetch
  | load
  | session
  | normalize
  | inference
  | rank
  | print
deriving DecidableEq, Repr

/-- All stages, in program order. -/
def allStages : List Stage :=
  [.arguments, .fetch, .load, .session, .normalize, .inference, .rank, .print]

/-- How a run ends: by returning from `main`, by `log.Fatal` (status 1) or by a panic. -/
inductive Exit where
  | returned
  | fatal
  | panicked (p : Panic)
deriving DecidableEq, Repr

/-- What a run leaves behind: the stages entered, the writes to standard output, the log
lines on standard error, and how it ended. -/
structure Run where
  stages : List Stage
  stdout : List String
  log : List String
  exit : Exit
deriving DecidableEq, Repr

/-- The expression `result[0].Value().([][]float32)[0]`. -/
def firstRow : Tensor → Except Panic (List Float32)
  | .matrix (row :: _) => .ok row
  | .matrix [] => .error (.indexOutOfRange 0 0)
  | _ => .error .typeAssertion

/-- The function `main`. -/
def main (sort : Labels → Labels) (percent : Float32 → String) (env : Env) : Run :=
  if env.Args.length < 2 then
    ⟨[.arguments], [], ["Usage: img-recognition <img_url>"], .fatal⟩
  else
    let url := env.Args.getD 1 ""
    let log := ["URL: " ++ url]
    match env.httpGet url with
    | .error err =>
      ⟨[.arguments, .fetch], [], log ++ ["Unable to get an image: " ++ err], .fatal⟩
    | .ok resp =>
      match loadGraphAndLabels env with
      | .error err =>
        ⟨[.arguments, .fetch, .load], [],
          log ++ ["Unable to load graph and labels: " ++ err], .fatal⟩
      | .ok (modelGraph, labels) =>
        match env.newSession modelGraph with
        | .error err =>
          ⟨[.arguments, .fetch, .load, .session], [],
            log ++ ["Unable to init session: " ++ err], .fatal⟩
        | .ok _ =>
          match normalizeImage env resp with
          | .error err =>
            ⟨[.arguments, .fetch, .load, .session, .normalize], [],
              log ++ ["Unable to normalize image: " ++ err], .fatal⟩
          | .ok tensor =>
            let output : Output := ⟨modelGraph.Operation "output", 0⟩
            match env.sessionRun modelGraph [(output, tensor)] output with
            | .error err =>
              ⟨[.arguments, .fetch, .load, .session, .normalize, .inference], [],
                log ++ ["Unable to inerface: " ++ err], .fatal⟩
            | .ok result =>
              match (firstRow result).bind (getTopFiveLabels sort labels) with
              | .error p =>
                ⟨[.arguments, .fetch, .load, .session, .normalize, .inference, .rank], [],
                  log, .panicked p⟩
              | .ok topFiveLabels =>
                ⟨allStages, printLabels percent topFiveLabels, log, .returned⟩

/-! ## Auxiliary definitions of the proofs -/

/-- The labels of the scenario of the specification. -/
def scenarioLabels : List String := ["cat", "dog", "bird", "car", "plane", "tree"]

/-- The probabilities of the scenario, 0.1, 0.05, 0.7, 0.02, 0.03 and 0.1 as `float32`
constants (`0x3dcccccd`, `0x3d4ccccd`, `0x3f333333`, `0x3ca3d70a`, `0x3cf5c28f`). -/
def scenarioProbabilities : List Float32 :=
  [⟨false, 123, 5033165⟩, ⟨false, 122, 5033165⟩, ⟨false, 126, 3355443⟩,
   ⟨false, 121, 2348810⟩, ⟨false, 121, 7717519⟩, ⟨false, 123, 5033165⟩]

/-- Six labels for the inputs with a tie or a NaN. -/
def tieLabels : List String := ["a", "b", "c", "d", "e", "f"]

/-- The labels `tieLabels` with the last two exchanged. -/
def tieLabelsSwapped : List String := ["a", "b", "c", "d", "f", "e"]

/-- The probabilities 0.7, 0.5, 0.4, 0.3, 0.1 and 0.1: the fifth and sixth are equal. -/
def tieProbabilities : List Float32 :=
  [⟨false, 126, 3355443⟩, ⟨false, 126, 0⟩, ⟨false, 125, 5033165⟩, ⟨false, 125, 1677722⟩,
   ⟨false, 123, 5033165⟩, ⟨false, 123, 5033165⟩]

/-- The probabilities NaN, 0.7, 0.5, 0.4, 0.3 and 0.1. -/
def nanProbabilities : List Float32 :=
  [⟨false, 255, 4194304⟩, ⟨false, 126, 3355443⟩, ⟨false, 126, 0⟩, ⟨false, 125, 5033165⟩,
   ⟨false, 125, 1677722⟩, ⟨false, 123, 5033165⟩]

/-- The labels `tieLabels` rotated by one place. -/
def tieLabelsRotated : List String := ["b", "c", "d", "e", "f", "a"]

/-- The probabilities `nanProbabilities` rotated by one place, the NaN last. -/
def nanProbabilitiesRotated : List Float32 :=
  [⟨false, 126, 3355443⟩, ⟨false, 126, 0⟩, ⟨false, 125, 5033165⟩, ⟨false, 125, 1677722⟩,
   ⟨false, 123, 5033165⟩, ⟨false, 255, 4194304⟩]

/-- A world for sample runs: the usual two arguments, a fetch with the given outcome, a
graph file that loads, a labels file with the given lines, and a runtime in which every
call succeeds and the classification yields one row, the probabilities of the scenario. -/
def sampleEnv (fetch : Except String Body) (labels : File) : Env where
  Args := ["img-recognition", "http://localhost/cat.jpg"]
  httpGet := fun _ => fetch
  readFile := fun _ => .ok []
  graphImport := fun _ => .ok []
  osOpen := fun _ => .ok labels
  newTensor := fun bytes => .ok (.string bytes)
  newSession := fun _ => .ok ()
  sessionRun := fun graph _ _ =>
    if graph = [] then .ok (.matrix [scenarioProbabilities]) else .ok .other

/-- A labels file of six lines on which the read that follows the first line fails. -/
def brokenLabelsFile : File := ⟨scenarioLabels, some (1, "read: input/output error")⟩

/-- The candidates of the scenario, as `Labels`. -/
def scenarioCandidates : Labels := List.zipWith Label.mk scenarioLabels scenarioProbabilities

/-- The shape of a slice grown from nil by single appends: empty without a backing array,
or filled to more than half of a capacity that is a power of two. -/
def Slice.Grown (s : Slice) : Prop :=
  (s.elems = [] ∧ s.cap = 0) ∨
    ∃ k : Nat, s.cap = 2 ^ k ∧ s.elems.length ≤ s.cap ∧ s.cap < 2 * s.elems.length

/-- Insertion of `x` into the reversed sorted prefix `rev`: `x` passes every element it is
`Less` than and stops at the first one it is not (the list form of the inner loop). -/
def insertRev (x : Label) : List Label → List Label
  | [] => [x]
  | p :: rev => if x.Probability.gt p.Probability then p :: insertRev x rev else x :: p :: rev

/-! ## Insertion sort meets the contract of `sort.Sort` -/

theorem getElem?_reverse_append_succ (rev : List Label) (p x : Label) (post : List Label) :
    (rev.reverse ++ p :: x :: post)[rev.length + 1]? = some x ∧
    (rev.reverse ++ p :: x :: post)[rev.length]? = some p := by
  constructor
  · rw [List.getElem?_append_right (by simp)]
    simp
  · rw [List.getElem?_append_right (by simp)]
    simp

theorem Less_at_boundary (rev : List Label) (p x : Label) (post : List Label) :
    Labels.Less (rev.reverse ++ p :: x :: post) (rev.length + 1) rev.length
      = .ok (x.Probability.gt p.Probability) := by
  obtain ⟨h1, h2⟩ := getElem?_reverse_append_succ rev p x post
  simp only [Labels.Less, h1, h2]

theorem Swap_at_boundary (rev : List Label) (p x : Label) (post : List Label) :
    Labels.Swap (rev.reverse ++ p :: x :: post) (rev.length + 1) rev.length
      = .ok (rev.reverse ++ x :: p :: post) := by
  obtain ⟨h1, h2⟩ := getElem?_reverse_append_succ rev p x post
  simp only [Labels.Swap, h1, h2]
  congr 1
  rw [List.set_append_right _ _ (by simp), List.set_append_right _ _ (by simp)]
  simp

theorem insertionSortInner_eq (rev : List Label) (x : Label) (post : List Label) :
    insertionSortInner rev.length (rev.reverse ++ x :: post)
      = .ok ((insertRev x rev).reverse ++ post) := by
  induction rev generalizing post with
  | nil => simp [insertionSortInner, insertRev]
  | cons p rev ih =>
    have hl : (p :: rev).reverse ++ x :: post = rev.reverse ++ p :: x :: post := by simp
    rw [hl, List.length_cons, insertionSortInner, Less_at_boundary]
    by_cases hgt : x.Probability.gt p.Probability = true
    · simp only [hgt, insertRev, if_true, Swap_at_boundary]
      have := ih (p :: post)
      simp only [bind, Except.bind, pure, Except.pure] at this ⊢
      rw [this]
      simp
    · simp only [hgt, insertRev]
      simp [bind, Except.bind, pure, Except.pure]

theorem length_insertRev (x : Label) (rev : List Label) :
    (insertRev x rev).length = rev.length + 1 := by
  induction rev with
  | nil => rfl
  | cons p rev ih =>
    by_cases hgt : x.Probability.gt p.Probability = true <;> simp [insertRev, hgt, ih]

theorem insertionSortOuter_eq (rest rev : List Label) (n : Nat)
    (hn : n = rev.length + rest.length) :
    insertionSortOuter n rest.length rev.length (rev.reverse ++ rest)
      = .ok ((rest.foldl (fun acc x => insertRev x acc) rev).reverse) := by
  induction rest generalizing rev with
  | nil => simp [insertionSortOuter]
  | cons x rest ih =>
    have h := ih (insertRev x rev) (by rw [length_insertRev, hn, List.length_cons]; omega)
    rw [length_insertRev] at h
    have hlt : rev.length < n := by rw [hn, List.length_cons]; omega
    simp only [List.length_cons, insertionSortOuter, hlt, if_true, insertionSortInner_eq,
      List.foldl_cons]
    simpa [bind, Except.bind] using h

/-- On every slice the index-driven insertion sort ends without a panic, with the list
obtained by inserting the elements one after the other. -/
theorem insertionSort_ok (data : Labels) :
    insertionSort data = .ok ((data.foldl (fun acc x => insertRev x acc) []).reverse) := by
  cases data with
  | nil => rfl
  | cons a rest =>
    have h := insertionSortOuter_eq rest [a] (a :: rest).length (by simp; omega)
    simpa [insertionSort, Labels.Len, insertRev] using h

theorem sortByInsertion_eq (data : Labels) :
    sortByInsertion data = (data.foldl (fun acc x => insertRev x acc) []).reverse := by
  simp [sortByInsertion, insertionSort_ok]

theorem perm_insertRev (x : Label) (rev : List Label) : (insertRev x rev).Perm (x :: rev) := by
  induction rev with
  | nil => exact List.Perm.refl _
  | cons p rev ih =>
    by_cases hgt : x.Probability.gt p.Probability = true
    · simp only [insertRev, hgt, if_true]
      exact (List.Perm.cons p ih).trans (List.Perm.swap x p rev)
    · simp only [insertRev, hgt]
      exact List.Perm.refl _

theorem perm_foldl_insertRev (rest rev : List Label) :
    (rest.foldl (fun acc x => insertRev x acc) rev).Perm (rest ++ rev) := by
  induction rest generalizing rev with
  | nil => exact List.Perm.refl _
  | cons x rest ih =>
    simp only [List.foldl_cons, List.cons_append]
    exact (ih (insertRev x rev)).trans
      ((List.Perm.append_left rest (perm_insertRev x rev)).trans List.perm_middle)

theorem perm_sortByInsertion (data : Labels) : (sortByInsertion data).Perm data := by
  rw [sortByInsertion_eq]
  have h := perm_foldl_insertRev data []
  rw [List.append_nil] at h
  exact (List.reverse_perm _).trans h

theorem gt_eq_of_not_nan {x y : Float32} (hx : x.isNaN = false) (hy : y.isNaN = false) :
    x.gt y = decide (y.value < x.value) := by
  simp [Float32.gt, hx, hy]

theorem ascending_insertRev (x : Label) (rev : List Label) (hx : x.Probability.isNaN = false)
    (hrev : NoNaN rev)
    (hs : rev.Pairwise (fun a b => a.Probability.value ≤ b.Probability.value)) :
    (insertRev x rev).Pairwise (fun a b => a.Probability.value ≤ b.Probability.value) := by
  induction rev with
  | nil => simp [insertRev]
  | cons p rev ih =>
    have hp : p.Probability.isNaN = false := hrev p (List.mem_cons_self _ _)
    have hrev' : NoNaN rev := fun y hy => hrev y (List.mem_cons_of_mem _ hy)
    rw [List.pairwise_cons] at hs
    by_cases hgt : x.Probability.gt p.Probability = true
    · simp only [insertRev, hgt, if_true]
      rw [gt_eq_of_not_nan hx hp, decide_eq_true_eq] at hgt
      refine List.Pairwise.cons ?_ (ih hrev' hs.2)
      intro b hb
      rcases List.mem_cons.mp ((perm_insertRev x rev).mem_iff.mp hb) with h | h
      · subst h; exact le_of_lt hgt
      · exact hs.1 b h
    · simp only [insertRev, hgt]
      rw [gt_eq_of_not_nan hx hp, decide_eq_true_eq, not_lt] at hgt
      refine List.Pairwise.cons ?_ (List.Pairwise.cons hs.1 hs.2)
      intro b hb
      rcases List.mem_cons.mp hb with h | h
      · subst h; exact hgt
      · exact le_trans hgt (hs.1 b h)

theorem ascending_foldl_insertRev (rest rev : List Label) (hrest : NoNaN rest)
    (hrev : NoNaN rev)
    (hs : rev.Pairwise (fun a b => a.Probability.value ≤ b.Probability.value)) :
    (rest.foldl (fun acc x => insertRev x acc) rev).Pairwise
      (fun a b => a.Probability.value ≤ b.Probability.value) := by
  induction rest generalizing rev with
  | nil => exact hs
  | cons x rest ih =>
    have hx : x.Probability.isNaN = false := hrest x (List.mem_cons_self _ _)
    refine ih (insertRev x rev) (fun y hy => hrest y (List.mem_cons_of_mem _ hy)) ?_
      (ascending_insertRev x rev hx hrev hs)
    intro y hy
    rcases List.mem_cons.mp ((perm_insertRev x rev).mem_iff.mp hy) with h | h
    · subst h; exact hx
    · exact hrev y h

/-- Descending order of a slice, stated on the values. -/
theorem descending_sortByInsertion (data : Labels) (h : NoNaN data) :
    (sortByInsertion data).Pairwise (fun a b => b.Probability.value ≤ a.Probability.value) := by
  rw [sortByInsertion_eq, List.pairwise_reverse]
  exact ascending_foldl_insertRev data [] h (fun _ hy => absurd hy (List.not_mem_nil _))
    List.Pairwise.nil

theorem Less_of_getElem (l : Labels) (i j : Nat) (hi : i < l.length) (hj : j < l.length) :
    l.Less i j = .ok (l[i].Probability.gt l[j].Probability) := by
  simp [Labels.Less, List.getElem?_eq_getElem hi, List.getElem?_eq_getElem hj]

/-- A slice without NaN whose values descend satisfies the postcondition of `sort.Sort`. -/
theorem Less_false_of_descending (l : Labels) (hn : NoNaN l)
    (hs : l.Pairwise (fun a b => b.Probability.value ≤ a.Probability.value)) (i j : Nat)
    (hij : i < j) (hj : j < l.Len) : l.Less j i = .ok false := by
  have hj' : j < l.length := hj
  have hi' : i < l.length := lt_trans hij hj'
  rw [Less_of_getElem l j i hj' hi',
    gt_eq_of_not_nan (hn _ (List.getElem_mem _)) (hn _ (List.getElem_mem _))]
  have := List.pairwise_iff_getElem.mp hs i j hi' hj' hij
  simp [not_lt.mpr this]

/-- Insertion sort meets the contract of `sort.Sort`. -/
theorem sortContract_sortByInsertion : SortContract sortByInsertion := by
  intro l
  refine ⟨perm_sortByInsertion l, fun hn i j hij hj => ?_⟩
  have hn' : NoNaN (sortByInsertion l) :=
    fun x hx => hn x ((perm_sortByInsertion l).mem_iff.mp hx)
  exact Less_false_of_descending _ hn' (descending_sortByInsertion l hn) i j hij hj

/-- What the contract of `sort.Sort` gives on a slice without NaN: descending values. -/
theorem SortContract.descending {sort : Labels → Labels} (hs : SortContract sort)
    (l : Labels) (hn : NoNaN l) :
    (sort l).Pairwise (fun a b => b.Probability.value ≤ a.Probability.value) := by
  have hn' : NoNaN (sort l) := fun x hx => hn x ((hs l).1.mem_iff.mp hx)
  rw [List.pairwise_iff_getElem]
  intro i j hi hj hij
  have h := (hs l).2 hn i j hij hj
  rw [Less_of_getElem _ j i hj hi,
    gt_eq_of_not_nan (hn' _ (List.getElem_mem _)) (hn' _ (List.getElem_mem _))] at h
  have h' : decide ((sort l)[i].Probability.value < (sort l)[j].Probability.value) = false := by
    injection h
  exact not_lt.mp (of_decide_eq_false h')

/-! ## The candidates and the slice expression -/

theorem collect_elems (labels : List String) (probabilities : List Float32) (i : Nat)
    (results : Slice) :
    (collect labels i probabilities results).elems
      = results.elems ++ List.zipWith Label.mk (labels.drop i) probabilities := by
  induction probabilities generalizing i results with
  | nil => simp [collect]
  | cons p rest ih =>
    by_cases h : i < labels.length
    · have hd : labels.drop i = labels[i] :: labels.drop (i + 1) := by
        simp
      simp only [collect, h, dite_true, ih, hd, List.zipWith_cons_cons]
      simp [Slice.append]
      split <;> simp
    · have hd : labels.drop i = [] := List.drop_eq_nil_of_le (not_lt.mp h)
      simp [collect, h, hd]

theorem candidates_elems (labels : List String) (probabilities : List Float32) :
    (candidates labels probabilities).elems = List.zipWith Label.mk labels probabilities := by
  simp [candidates, collect_elems, Slice.nil]

theorem length_candidates (labels : List String) (probabilities : List Float32) :
    (candidates labels probabilities).elems.length
      = min labels.length probabilities.length := by
  rw [candidates_elems, List.length_zipWith]

theorem grown_append (s : Slice) (x : Label) (h : s.Grown) : (s.append x).Grown := by
  rcases h with ⟨he, hc⟩ | ⟨k, hk, hle, hlt⟩
  · right
    refine ⟨0, ?_⟩
    simp [Slice.append, he, hc]
  · right
    by_cases hfit : s.elems.length < s.cap
    · refine ⟨k, ?_⟩
      simp only [Slice.append, hfit, if_true, List.length_append, List.length_singleton]
      omega
    · have hpos : s.cap ≠ 0 := by
        rw [hk]; exact (Nat.pos_pow_of_pos k (by decide)).ne'
      refine ⟨k + 1, ?_⟩
      simp only [Slice.append, hfit, if_false, hpos, List.length_append,
        List.length_singleton]
      rw [pow_succ]
      omega

theorem grown_collect (labels : List String) (probabilities : List Float32) (i : Nat)
    (results : Slice) (h : results.Grown) : (collect labels i probabilities results).Grown := by
  induction probabilities generalizing i results with
  | nil => simpa [collect] using h
  | cons p rest ih =>
    by_cases hi : i < labels.length
    · simp only [collect, hi, dite_true]
      exact ih _ _ (grown_append _ _ h)
    · simpa [collect, hi] using h

theorem grown_candidates (labels : List String) (probabilities : List Float32) :
    (candidates labels probabilities).Grown :=
  grown_collect labels probabilities 0 Slice.nil (Or.inl ⟨rfl, rfl⟩)

theorem Slice.Grown.length_le_cap {s : Slice} (h : s.Grown) : s.elems.length ≤ s.cap := by
  rcases h with ⟨he, hc⟩ | ⟨k, _, hle, _⟩
  · simp [he]
  · exact hle

theorem Slice.Grown.cap_lt_five {s : Slice} (h : s.Grown) (hlen : s.elems.length < 5) :
    s.cap < 5 := by
  rcases h with ⟨_, hc⟩ | ⟨k, hk, _, hlt⟩
  · omega
  · have hk3 : k < 3 := by
      by_contra hge
      have : 2 ^ 3 ≤ 2 ^ k := Nat.pow_le_pow_right (by decide) (not_lt.mp hge)
      omega
    interval_cases k <;> omega

/-- With at least five candidates the slice expression succeeds on the sorted slice. -/
theorem getTopFiveLabels_eq_take (sort : Labels → Labels) (labels : List String)
    (probabilities : List Float32)
    (hlen : (sort (candidates labels probabilities).elems).length
      = (candidates labels probabilities).elems.length)
    (h5 : 5 ≤ min labels.length probabilities.length) :
    getTopFiveLabels sort labels probabilities
      = .ok ((sort (candidates labels probabilities).elems).take 5) := by
  have hcap := (grown_candidates labels probabilities).length_le_cap
  have hl := length_candidates labels probabilities
  have h5cap : 5 ≤ (candidates labels probabilities).cap := by omega
  simp only [getTopFiveLabels, Slice.upTo, h5cap, if_true]
  rw [List.take_append_of_le_length (by omega)]

/-- With fewer than five candidates the slice expression is out of range. -/
theorem getTopFiveLabels_eq_error (sort : Labels → Labels) (labels : List String)
    (probabilities : List Float32) (h5 : min labels.length probabilities.length < 5) :
    (candidates labels probabilities).cap < 5 ∧
    getTopFiveLabels sort labels probabilities
      = .error (.sliceBoundsOutOfRange 5 (candidates labels probabilities).cap) := by
  have hl := length_candidates labels probabilities
  have hcap := (grown_candidates labels probabilities).cap_lt_five (by omega)
  refine ⟨hcap, ?_⟩
  simp only [getTopFiveLabels, Slice.upTo, not_le.mpr hcap, if_false]

theorem mem_candidates_label {labels : List String} {probabilities : List Float32}
    {x : Label} (hx : x ∈ (candidates labels probabilities).elems) :
    x.Label ∈ labels ∧ x.Probability ∈ probabilities := by
  rw [candidates_elems] at hx
  obtain ⟨i, hi, rfl⟩ := List.mem_iff_getElem.mp hx
  rw [List.length_zipWith] at hi
  simp only [List.getElem_zipWith]
  exact ⟨List.getElem_mem _, List.getElem_mem _⟩

theorem noNaN_candidates (labels : List String) {probabilities : List Float32}
    (h : ∀ p ∈ probabilities, p.isNaN = false) : NoNaN (candidates labels probabilities).elems :=
  fun _ hx => h _ (mem_candidates_label hx).2

theorem le_eq_of_not_nan {x y : Float32} (hx : x.isNaN = false) (hy : y.isNaN = false) :
    x.le y = decide (x.value ≤ y.value) := by
  simp [Float32.le, hx, hy]

/-- In a descending list everything after the first `n` entries is at most everything
among them. -/
theorem drop_le_take_of_descending (s : Labels) (n : Nat)
    (hs : s.Pairwise (fun a b => b.Probability.value ≤ a.Probability.value)) :
    ∀ x ∈ s.drop n, ∀ y ∈ s.take n, x.Probability.value ≤ y.Probability.value := by
  rw [← List.take_append_drop n s, List.pairwise_append] at hs
  intro x hx y hy
  exact hs.2.2 y hy x hx

theorem newlines_append (a b : String) : newlines (a ++ b) = newlines a + newlines b := by
  simp [newlines, String.data_append, List.count_append]

theorem newlines_printfLabel (percent : Float32 → String) (l : Label)
    (hl : newlines l.Label = 0) (hp : newlines (percent l.Probability) = 0) :
    newlines (printfLabel percent l) = 1 := by
  simp only [printfLabel, newlines_append, hl, hp]
  rfl

theorem lineCount_printLabels (percent : Float32 → String) (top : List Label)
    (hl : ∀ x ∈ top, newlines x.Label = 0) (hp : ∀ p, newlines (percent p) = 0) :
    lineCount (printLabels percent top) = top.length := by
  induction top with
  | nil => rfl
  | cons x top ih =>
    have hx := newlines_printfLabel percent x (hl x (List.mem_cons_self _ _)) (hp _)
    have := ih (fun y hy => hl y (List.mem_cons_of_mem _ hy))
    simp only [lineCount, printLabels, List.map_cons, List.sum_cons, List.length_cons] at this ⊢
    omega

/-! ## Ranking -/

/-- C1: before sorting, the candidates of `getTopFiveLabels` are the `min(N, M)`
index-aligned pairs `(labels[i], probabilities[i])`, `i = 0 .. min(N, M) - 1`, in index
order, whichever of the two inputs is the longer. -/
theorem candidates_index_aligned (labels : List String) (probabilities : List Float32) :
    (candidates labels probabilities).elems.length
        = min labels.length probabilities.length ∧
      (candidates labels probabilities).elems
        = List.zipWith Label.mk labels probabilities ∧
      ∀ (i : Nat) (hl : i < labels.length) (hp : i < probabilities.length),
        (candidates labels probabilities).elems[i]? = some ⟨labels[i], probabilities[i]⟩ := by
  refine ⟨length_candidates _ _, candidates_elems _ _, fun i hl hp => ?_⟩
  rw [candidates_elems, List.getElem?_eq_getElem (by simp [List.length_zipWith]; omega)]
  simp

/-- The three cases of C1 on the scenario data: three labels with six probabilities, six
with six, and six labels with two probabilities. -/
theorem candidates_index_aligned_witness :
    ((candidates (scenarioLabels.take 3) scenarioProbabilities).elems.length = 3 ∧
      (candidates (scenarioLabels.take 3) scenarioProbabilities).elems[2]?
        = some ⟨"bird", ⟨false, 126, 3355443⟩⟩) ∧
    ((candidates scenarioLabels scenarioProbabilities).elems.length = 6 ∧
      (candidates scenarioLabels scenarioProbabilities).elems[5]?
        = some ⟨"tree", ⟨false, 123, 5033165⟩⟩) ∧
    ((candidates scenarioLabels (scenarioProbabilities.take 2)).elems.length = 2 ∧
      (candidates scenarioLabels (scenarioProbabilities.take 2)).elems[1]?
        = some ⟨"dog", ⟨false, 122, 5033165⟩⟩) :=
  ⟨⟨(candidates_index_aligned _ _).1,
      (candidates_index_aligned (scenarioLabels.take 3) scenarioProbabilities).2.2 2
        (by decide) (by decide)⟩,
    ⟨(candidates_index_aligned _ _).1,
      (candidates_index_aligned scenarioLabels scenarioProbabilities).2.2 5
        (by decide) (by decide)⟩,
    ⟨(candidates_index_aligned _ _).1,
      (candidates_index_aligned scenarioLabels (scenarioProbabilities.take 2)).2.2 1
        (by decide) (by decide)⟩⟩

theorem map_getD_range {α : Type} (d : α) (l : List α) :
    (List.range l.length).map (fun i => l.getD i d) = l := by
  apply List.ext_getElem
  · simp
  · intro i h1 h2
    simp [List.getD_eq_getElem?_getD, List.getElem?_eq_getElem h2]

/-- A rearrangement of a list reads it along a rearrangement of its indices. -/
theorem perm_exists_indices {α : Type} (d : α) {l₁ l₂ : List α} (h : l₁.Perm l₂) :
    ∃ σ : List Nat, σ.Perm (List.range l₂.length) ∧ l₁ = σ.map (fun i => l₂.getD i d) := by
  induction h with
  | nil => exact ⟨[], by simp, by simp⟩
  | @cons x l₁ l₂ _ ih =>
    obtain ⟨σ, hσ, hl⟩ := ih
    refine ⟨0 :: σ.map Nat.succ, ?_, ?_⟩
    · rw [List.length_cons, List.range_succ_eq_map]
      exact List.Perm.cons 0 (hσ.map Nat.succ)
    · rw [hl]
      simp [Function.comp_def]
  | swap x y l =>
    refine ⟨1 :: 0 :: (List.range l.length).map (fun i => i + 2), ?_, ?_⟩
    · rw [List.length_cons, List.length_cons, List.range_succ_eq_map, List.range_succ_eq_map]
      simp only [List.map_cons, List.map_map]
      exact List.Perm.swap _ _ _
    · have := map_getD_range d l
      simp only [List.map_cons, List.map_map, Function.comp_def]
      simp only [List.getD_cons_succ, List.getD_cons_zero]
      rw [this]
  | @trans l₁ l₂ l₃ _ _ ih₁ ih₂ =>
    obtain ⟨σ₁, hσ₁, hl₁⟩ := ih₁
    obtain ⟨σ₂, hσ₂, hl₂⟩ := ih₂
    have hlen : l₂.length = σ₂.length := by rw [hl₂, List.length_map]
    refine ⟨σ₁.map (fun i => σ₂.getD i 0), ?_, ?_⟩
    · have h1 := hσ₁.map (fun i => σ₂.getD i 0)
      rw [hlen, map_getD_range] at h1
      exact h1.trans hσ₂
    · rw [hl₁, List.map_map]
      apply List.map_congr_left
      intro i hi
      have hi' : i < σ₂.length := by
        have := hσ₁.mem_iff.mp hi
        rw [List.mem_range] at this
        omega
      have hi'' : i < l₂.length := by omega
      simp only [Function.comp_def]
      rw [List.getD_eq_getElem _ _ hi'', List.getD_eq_getElem _ _ hi']
      simp only [hl₂, List.getElem_map]

theorem getD_candidates (labels : List String) (probabilities : List Float32) (i : Nat)
    (hi : i < min labels.length probabilities.length) :
    (candidates labels probabilities).elems.getD i zeroLabel
      = ⟨labels.getD i "", probabilities.getD i Float32.zero⟩ := by
  have hl : i < labels.length := by omega
  have hp : i < probabilities.length := by omega
  rw [candidates_elems, List.getD_eq_getElem _ _ (by simp [List.length_zipWith]; omega),
    List.getD_eq_getElem _ _ hl, List.getD_eq_getElem _ _ hp]
  simp

/-- C2: with no NaN and at least five index-aligned pairs, `getTopFiveLabels` returns the
pairs `(labels[i], probabilities[i])` of five distinct indices `i < min(N, M)`, and the
probability at every index that is not among the five is less than or equal to the
probability of every returned entry. -/
theorem getTopFiveLabels_highest (sort : Labels → Labels) (hsort : SortContract sort)
    (labels : List String) (probabilities : List Float32)
    (hnan : ∀ p ∈ probabilities, p.isNaN = false)
    (h5 : 5 ≤ min labels.length probabilities.length) :
    ∃ (top : List Label) (indices : List Nat),
      getTopFiveLabels sort labels probabilities = .ok top ∧
      top.length = 5 ∧ indices.length = 5 ∧ indices.Nodup ∧
      (∀ i ∈ indices, i < min labels.length probabilities.length) ∧
      top = indices.map
        (fun i => ⟨labels.getD i "", probabilities.getD i Float32.zero⟩) ∧
      ∀ j, j < min labels.length probabilities.length → j ∉ indices →
        ∀ y ∈ top, (probabilities.getD j Float32.zero).le y.Probability = true := by
  have hperm := (hsort (candidates labels probabilities).elems).1
  have hlen := length_candidates labels probabilities
  have hn := noNaN_candidates labels hnan
  have hdesc := hsort.descending _ hn
  obtain ⟨σ, hσ, hs⟩ := perm_exists_indices zeroLabel hperm
  have hσlen : σ.length = min labels.length probabilities.length := by
    rw [hσ.length_eq, List.length_range, hlen]
  have hσlt : ∀ i ∈ σ, i < min labels.length probabilities.length := by
    intro i hi
    have := hσ.mem_iff.mp hi
    rw [List.mem_range] at this
    omega
  have htop : (sort (candidates labels probabilities).elems).take 5
      = (σ.take 5).map
        (fun i => (⟨labels.getD i "", probabilities.getD i Float32.zero⟩ : Label)) := by
    rw [hs, ← List.map_take]
    apply List.map_congr_left
    intro i hi
    exact getD_candidates labels probabilities i (hσlt i (List.mem_of_mem_take hi))
  refine ⟨(sort (candidates labels probabilities).elems).take 5, σ.take 5,
    getTopFiveLabels_eq_take sort labels probabilities hperm.length_eq h5, ?_, ?_, ?_, ?_,
    htop, ?_⟩
  · rw [List.length_take, hperm.length_eq, hlen]
    omega
  · rw [List.length_take, hσlen]
    omega
  · exact ((hσ.nodup_iff).mpr (List.nodup_range _)).sublist (List.take_sublist _ _)
  · exact fun i hi => hσlt i (List.mem_of_mem_take hi)
  · intro j hj hjn y hy
    have hjσ : j ∈ σ := by
      apply hσ.mem_iff.mpr
      rw [List.mem_range]
      omega
    have hjdrop : j ∈ σ.drop 5 := by
      rw [← List.take_append_drop 5 σ, List.mem_append] at hjσ
      exact hjσ.resolve_left hjn
    have hx : (candidates labels probabilities).elems.getD j zeroLabel
        ∈ (sort (candidates labels probabilities).elems).drop 5 := by
      have hd : (sort (candidates labels probabilities).elems).drop 5
          = (σ.drop 5).map (fun i => (candidates labels probabilities).elems.getD i zeroLabel) := by
        rw [hs, ← List.map_drop]
      rw [hd]
      exact List.mem_map_of_mem _ hjdrop
    have hle := drop_le_take_of_descending _ 5 hdesc _ hx y hy
    rw [getD_candidates labels probabilities j hj] at hle
    have hyn : y.Probability.isNaN = false :=
      hn y (hperm.mem_iff.mp (List.mem_of_mem_take hy))
    have hjn' : (probabilities.getD j Float32.zero).isNaN = false := by
      rw [List.getD_eq_getElem _ _ (by omega : j < probabilities.length)]
      exact hnan _ (List.getElem_mem _)
    rw [le_eq_of_not_nan hjn' hyn]
    exact decide_eq_true hle

/-- The scenario of the specification under insertion sort: bird, cat, tree, dog and plane
are returned, car is not. -/
theorem getTopFiveLabels_highest_witness :
    (getTopFiveLabels sortByInsertion scenarioLabels scenarioProbabilities).map
        (fun top => top.map (fun l => l.Label))
      = .ok ["bird", "cat", "tree", "dog", "plane"] ∧
    ∃ (top : List Label) (indices : List Nat),
      getTopFiveLabels sortByInsertion scenarioLabels scenarioProbabilities = .ok top ∧
      top.length = 5 ∧ indices.length = 5 ∧ indices.Nodup ∧
      (∀ i ∈ indices, i < min scenarioLabels.length scenarioProbabilities.length) ∧
      top = indices.map
        (fun i => ⟨scenarioLabels.getD i "", scenarioProbabilities.getD i Float32.zero⟩) ∧
      ∀ j, j < min scenarioLabels.length scenarioProbabilities.length → j ∉ indices →
        ∀ y ∈ top, (scenarioProbabilities.getD j Float32.zero).le y.Probability = true :=
  ⟨rfl, getTopFiveLabels_highest sortByInsertion sortContract_sortByInsertion scenarioLabels
    scenarioProbabilities (by decide) (by decide)⟩

theorem getD_not_nan {probabilities : List Float32}
    (hnan : ∀ p ∈ probabilities, p.isNaN = false) (j : Nat) (hj : j < probabilities.length) :
    (probabilities.getD j Float32.zero).isNaN = false := by
  rw [List.getD_eq_getElem _ _ hj]
  exact hnan _ (List.getElem_mem _)

/-- C3, amended: with no NaN and at least five index-aligned pairs, the returned list
descends by probability: for positions `i < j` the comparator `Less(j, i)` is false and the
later probability is less than or equal to the earlier one.  The list holds the pairs of
five distinct indices, and two candidates of equal probability are both among them, in
either order, whenever at most five candidates have a probability greater than or equal to
theirs; a tie that the cut after the fifth entry falls into may lose one of its members. -/
theorem getTopFiveLabels_descending (sort : Labels → Labels) (hsort : SortContract sort)
    (labels : List String) (probabilities : List Float32)
    (hnan : ∀ p ∈ probabilities, p.isNaN = false)
    (h5 : 5 ≤ min labels.length probabilities.length) :
    ∃ (top : List Label) (indices : List Nat),
      getTopFiveLabels sort labels probabilities = .ok top ∧ top.length = 5 ∧
      (∀ i j : Nat, i < j → j < Labels.Len top → Labels.Less top j i = .ok false) ∧
      top.Pairwise (fun earlier later => later.Probability.le earlier.Probability = true) ∧
      (∃ rest, (top ++ rest).Perm (List.zipWith Label.mk labels probabilities)) ∧
      indices.length = 5 ∧ indices.Nodup ∧
      (∀ i ∈ indices, i < min labels.length probabilities.length) ∧
      top = indices.map
        (fun i => ⟨labels.getD i "", probabilities.getD i Float32.zero⟩) ∧
      ∀ i j : Nat, i < min labels.length probabilities.length →
        j < min labels.length probabilities.length →
        (probabilities.getD i Float32.zero).eq (probabilities.getD j Float32.zero) = true →
        ((List.range (min labels.length probabilities.length)).filter (fun k =>
          (probabilities.getD i Float32.zero).le (probabilities.getD k Float32.zero))).length
            ≤ 5 →
        i ∈ indices ∧ j ∈ indices := by
  have hperm := (hsort (candidates labels probabilities).elems).1
  have hlen := length_candidates labels probabilities
  have hn := noNaN_candidates labels hnan
  have hdesc := hsort.descending _ hn
  have hntop : NoNaN ((sort (candidates labels probabilities).elems).take 5) :=
    fun x hx => hn x (hperm.mem_iff.mp (List.mem_of_mem_take hx))
  have hdtop : ((sort (candidates labels probabilities).elems).take 5).Pairwise
      (fun a b => b.Probability.value ≤ a.Probability.value) :=
    hdesc.sublist (List.take_sublist _ _)
  obtain ⟨σ, hσ, hs⟩ := perm_exists_indices zeroLabel hperm
  have hσlen : σ.length = min labels.length probabilities.length := by
    rw [hσ.length_eq, List.length_range, hlen]
  have hσlt : ∀ i ∈ σ, i < min labels.length probabilities.length := by
    intro i hi
    have := hσ.mem_iff.mp hi
    rw [List.mem_range] at this
    omega
  have hσ5 : (σ.take 5).length = 5 := by
    rw [List.length_take, hσlen]
    omega
  have hσnd : (σ.take 5).Nodup :=
    ((hσ.nodup_iff).mpr (List.nodup_range _)).sublist (List.take_sublist _ _)
  have htake : (sort (candidates labels probabilities).elems).take 5
      = (σ.take 5).map (fun i => (candidates labels probabilities).elems.getD i zeroLabel) := by
    rw [hs, ← List.map_take]
  have hdrop : (sort (candidates labels probabilities).elems).drop 5
      = (σ.drop 5).map (fun i => (candidates labels probabilities).elems.getD i zeroLabel) := by
    rw [hs, ← List.map_drop]
  have htop : (sort (candidates labels probabilities).elems).take 5
      = (σ.take 5).map
        (fun i => (⟨labels.getD i "", probabilities.getD i Float32.zero⟩ : Label)) := by
    rw [htake]
    apply List.map_congr_left
    intro i hi
    exact getD_candidates labels probabilities i (hσlt i (List.mem_of_mem_take hi))
  -- an index left out is at most every index returned
  have hout : ∀ j, j < min labels.length probabilities.length → j ∉ σ.take 5 →
      ∀ k ∈ σ.take 5, (probabilities.getD j Float32.zero).value
        ≤ (probabilities.getD k Float32.zero).value := by
    intro j hj hjn k hk
    have hjσ : j ∈ σ := by
      apply hσ.mem_iff.mpr
      rw [List.mem_range]
      omega
    have hjdrop : j ∈ σ.drop 5 := by
      rw [← List.take_append_drop 5 σ, List.mem_append] at hjσ
      exact hjσ.resolve_left hjn
    have hx : (candidates labels probabilities).elems.getD j zeroLabel
        ∈ (sort (candidates labels probabilities).elems).drop 5 := by
      rw [hdrop]
      exact List.mem_map_of_mem _ hjdrop
    have hy : (candidates labels probabilities).elems.getD k zeroLabel
        ∈ (sort (candidates labels probabilities).elems).take 5 := by
      rw [htake]
      exact List.mem_map_of_mem _ hk
    have hle := drop_le_take_of_descending _ 5 hdesc _ hx _ hy
    rw [getD_candidates labels probabilities j hj,
      getD_candidates labels probabilities k (hσlt k (List.mem_of_mem_take hk))] at hle
    exact hle
  -- an index with at most five candidates at or above it is returned
  have hin : ∀ j, j < min labels.length probabilities.length →
      ((List.range (min labels.length probabilities.length)).filter (fun k =>
        (probabilities.getD j Float32.zero).le (probabilities.getD k Float32.zero))).length
          ≤ 5 →
      j ∈ σ.take 5 := by
    intro j hj hcount
    by_contra hjn
    have hjnan := getD_not_nan hnan j (by omega)
    have hsub : (j :: σ.take 5) ⊆ (List.range (min labels.length probabilities.length)).filter
        (fun k => (probabilities.getD j Float32.zero).le
          (probabilities.getD k Float32.zero)) := by
      intro k hk
      rw [List.mem_filter, List.mem_range]
      rcases List.mem_cons.mp hk with rfl | hk'
      · refine ⟨hj, ?_⟩
        rw [le_eq_of_not_nan hjnan hjnan]
        exact decide_eq_true (le_refl _)
      · have hklt := hσlt k (List.mem_of_mem_take hk')
        refine ⟨hklt, ?_⟩
        rw [le_eq_of_not_nan hjnan (getD_not_nan hnan k (by omega))]
        exact decide_eq_true (hout j hj hjn k hk')
    have hnd : (j :: σ.take 5).Nodup := List.nodup_cons.mpr ⟨hjn, hσnd⟩
    have hle := (List.subperm_of_subset hnd hsub).length_le
    rw [List.length_cons, hσ5] at hle
    omega
  refine ⟨(sort (candidates labels probabilities).elems).take 5, σ.take 5,
    getTopFiveLabels_eq_take sort labels probabilities hperm.length_eq h5, ?_, ?_, ?_,
    ⟨(sort (candidates labels probabilities).elems).drop 5, ?_⟩, hσ5, hσnd,
    fun i hi => hσlt i (List.mem_of_mem_take hi), htop, ?_⟩
  · rw [List.length_take, hperm.length_eq, hlen]
    omega
  · exact fun i j hij hj => Less_false_of_descending _ hntop hdtop i j hij hj
  · rw [List.pairwise_iff_getElem] at hdtop ⊢
    intro i j hi hj hij
    rw [le_eq_of_not_nan (hntop _ (List.getElem_mem _)) (hntop _ (List.getElem_mem _))]
    exact decide_eq_true (hdtop i j hi hj hij)
  · rw [List.take_append_drop, ← candidates_elems]
    exact hperm
  · intro i j hi hj heq hcount
    refine ⟨hin i hi hcount, hin j hj ?_⟩
    have hv : (probabilities.getD i Float32.zero).isNaN = false ∧
        (probabilities.getD j Float32.zero).isNaN = false ∧
        (probabilities.getD i Float32.zero).value
          = (probabilities.getD j Float32.zero).value := by
      simp only [Float32.eq, Bool.and_eq_true, decide_eq_true_eq, Bool.not_eq_true'] at heq
      exact ⟨heq.1.1, heq.1.2, heq.2⟩
    have hfun : (fun k => (probabilities.getD j Float32.zero).le
          (probabilities.getD k Float32.zero))
        = (fun k => (probabilities.getD i Float32.zero).le
          (probabilities.getD k Float32.zero)) := by
      funext k
      simp only [Float32.le, hv.1, hv.2.1, hv.2.2]
    rw [hfun]
    exact hcount

/-- The scenario under insertion sort: the returned probabilities descend, and cat (index
0) and tree (index 5), both 0.1 with three candidates at or above them, are both returned,
cat first; on the reversed input tree comes first. -/
theorem getTopFiveLabels_descending_witness :
    getTopFiveLabels sortByInsertion scenarioLabels scenarioProbabilities
      = .ok [⟨"bird", ⟨false, 126, 3355443⟩⟩, ⟨"cat", ⟨false, 123, 5033165⟩⟩,
          ⟨"tree", ⟨false, 123, 5033165⟩⟩, ⟨"dog", ⟨false, 122, 5033165⟩⟩,
          ⟨"plane", ⟨false, 121, 7717519⟩⟩] ∧
    getTopFiveLabels sortByInsertion scenarioLabels.reverse scenarioProbabilities.reverse
      = .ok [⟨"bird", ⟨false, 126, 3355443⟩⟩, ⟨"tree", ⟨false, 123, 5033165⟩⟩,
          ⟨"cat", ⟨false, 123, 5033165⟩⟩, ⟨"dog", ⟨false, 122, 5033165⟩⟩,
          ⟨"plane", ⟨false, 121, 7717519⟩⟩] ∧
    ∃ (top : List Label) (indices : List Nat),
      getTopFiveLabels sortByInsertion scenarioLabels scenarioProbabilities = .ok top ∧
      top.length = 5 ∧
      (∀ i j : Nat, i < j → j < Labels.Len top → Labels.Less top j i = .ok false) ∧
      top.Pairwise (fun earlier later => later.Probability.le earlier.Probability = true) ∧
      indices.length = 5 ∧ indices.Nodup ∧
      top = indices.map
        (fun i => ⟨scenarioLabels.getD i "", scenarioProbabilities.getD i Float32.zero⟩) ∧
      0 ∈ indices ∧ 5 ∈ indices := by
  obtain ⟨top, indices, hok, hlen, hless, hle, _, hilen, hnd, _, htop, hties⟩ :=
    getTopFiveLabels_descending sortByInsertion sortContract_sortByInsertion
      scenarioLabels scenarioProbabilities (by decide) (by decide)
  have h := hties 0 5 (by decide) (by decide) (by decide) (by decide)
  exact ⟨rfl, rfl, top, indices, hok, hlen, hless, hle, hilen, hnd, htop, h.1, h.2⟩

/-- C3 as stated fails on a tie that the cut falls into, here under insertion sort, which
meets the contract of `sort.Sort`: no probability is NaN, there are six candidates, those
at indices 4 and 5 (labels `e` and `f`) have equal probabilities, and `e` is returned while
`f` is not. -/
theorem getTopFiveLabels_descending_counterexample :
    SortContract sortByInsertion ∧
    (∀ p ∈ tieProbabilities, p.isNaN = false) ∧
    5 ≤ min tieLabels.length tieProbabilities.length ∧
    (tieProbabilities.getD 4 Float32.zero).eq (tieProbabilities.getD 5 Float32.zero) = true ∧
    (List.zipWith Label.mk tieLabels tieProbabilities)[4]?
      = some ⟨"e", ⟨false, 123, 5033165⟩⟩ ∧
    (List.zipWith Label.mk tieLabels tieProbabilities)[5]?
      = some ⟨"f", ⟨false, 123, 5033165⟩⟩ ∧
    ∃ top : List Label,
      getTopFiveLabels sortByInsertion tieLabels tieProbabilities = .ok top ∧
      top.map (fun l => l.Label) = ["a", "b", "c", "d", "e"] ∧
      (⟨"e", ⟨false, 123, 5033165⟩⟩ : Label) ∈ top ∧
      (⟨"f", ⟨false, 123, 5033165⟩⟩ : Label) ∉ top ∧
      "f" ∉ top.map (fun l => l.Label) := by
  refine ⟨sortContract_sortByInsertion, by decide, by decide, by decide, rfl, rfl,
    [⟨"a", ⟨false, 126, 3355443⟩⟩, ⟨"b", ⟨false, 126, 0⟩⟩, ⟨"c", ⟨false, 125, 5033165⟩⟩,
      ⟨"d", ⟨false, 125, 1677722⟩⟩, ⟨"e", ⟨false, 123, 5033165⟩⟩], rfl, rfl, by decide,
    by decide, by decide⟩

/-- C4: with fewer than five index-aligned pairs, whatever the sorting routine did before,
`getTopFiveLabels` panics on the slice expression `results[:5]` (the capacity is below 5)
and returns no list. -/
theorem getTopFiveLabels_too_few (sort : Labels → Labels) (labels : List String)
    (probabilities : List Float32) (h : min labels.length probabilities.length < 5) :
    (∃ cap, cap < 5 ∧
      getTopFiveLabels sort labels probabilities = .error (.sliceBoundsOutOfRange 5 cap)) ∧
    ∀ top, getTopFiveLabels sort labels probabilities ≠ .ok top := by
  obtain ⟨hcap, herr⟩ := getTopFiveLabels_eq_error sort labels probabilities h
  refine ⟨⟨_, hcap, herr⟩, fun top htop => ?_⟩
  rw [herr] at htop
  cases htop

/-- Three labels with three probabilities, and the empty input. -/
theorem getTopFiveLabels_too_few_witness :
    ((∃ cap, cap < 5 ∧
        getTopFiveLabels sortByInsertion (scenarioLabels.take 3) (scenarioProbabilities.take 3)
          = .error (.sliceBoundsOutOfRange 5 cap)) ∧
      ∀ top, getTopFiveLabels sortByInsertion (scenarioLabels.take 3)
        (scenarioProbabilities.take 3) ≠ .ok top) ∧
    getTopFiveLabels sortByInsertion (scenarioLabels.take 3) (scenarioProbabilities.take 3)
      = .error (.sliceBoundsOutOfRange 5 4) ∧
    ((∃ cap, cap < 5 ∧
        getTopFiveLabels sortByInsertion [] [] = .error (.sliceBoundsOutOfRange 5 cap)) ∧
      ∀ top, getTopFiveLabels sortByInsertion [] [] ≠ .ok top) :=
  ⟨getTopFiveLabels_too_few sortByInsertion (scenarioLabels.take 3)
      (scenarioProbabilities.take 3) (by decide),
    rfl, getTopFiveLabels_too_few sortByInsertion [] [] (by decide)⟩

/-- C5: with at least five labels and at least five probabilities `getTopFiveLabels`
returns exactly five entries, and the reporting loop makes one write per entry, five in
all; each write is one line, so that five lines reach standard output, as long as neither
a label nor a rendered percentage holds a newline of its own. -/
theorem getTopFiveLabels_five_lines (sort : Labels → Labels) (hsort : SortContract sort)
    (percent : Float32 → String) (labels : List String) (probabilities : List Float32)
    (hl : 5 ≤ labels.length) (hp : 5 ≤ probabilities.length) :
    ∃ top : List Label,
      getTopFiveLabels sort labels probabilities = .ok top ∧ top.length = 5 ∧
      (printLabels percent top).length = 5 ∧
      printLabels percent top = top.map (fun l =>
        "Label: " ++ l.Label ++ ", probability: " ++ percent l.Probability ++ "%\n") ∧
      ((∀ label ∈ labels, newlines label = 0) → (∀ p, newlines (percent p) = 0) →
        lineCount (printLabels percent top) = 5) := by
  have hperm := (hsort (candidates labels probabilities).elems).1
  have hlen := length_candidates labels probabilities
  have h5 : 5 ≤ min labels.length probabilities.length := by
    rw [Nat.le_min]
    exact ⟨hl, hp⟩
  have htop : ((sort (candidates labels probabilities).elems).take 5).length = 5 := by
    rw [List.length_take, hperm.length_eq, hlen]
    omega
  refine ⟨(sort (candidates labels probabilities).elems).take 5,
    getTopFiveLabels_eq_take sort labels probabilities hperm.length_eq h5, htop, ?_, rfl, ?_⟩
  · rw [printLabels, List.length_map, htop]
  · intro hlab hpct
    rw [lineCount_printLabels percent _ ?_ hpct, htop]
    intro x hx
    exact hlab _ (mem_candidates_label (hperm.mem_iff.mp (List.mem_of_mem_take hx))).1

/-- The scenario under insertion sort, every percentage rendered as `0.00`: five entries,
five writes, five lines. -/
theorem getTopFiveLabels_five_lines_witness :
    ∃ top : List Label,
      getTopFiveLabels sortByInsertion scenarioLabels scenarioProbabilities = .ok top ∧
      top.length = 5 ∧
      (printLabels (fun _ => "0.00") top).length = 5 ∧
      lineCount (printLabels (fun _ => "0.00") top) = 5 := by
  obtain ⟨top, hok, hlen, hwrites, _, hlines⟩ :=
    getTopFiveLabels_five_lines sortByInsertion sortContract_sortByInsertion
      (fun _ => "0.00") scenarioLabels scenarioProbabilities (by decide) (by decide)
  exact ⟨top, hok, hlen, hwrites, hlines (by decide) (fun _ => by decide)⟩

/-! ## Reordering the input -/

/-- In a descending list the entries at or above a threshold form a front segment. -/
theorem filter_eq_take_of_descending (T : Int) (s : Labels)
    (hd : s.Pairwise (fun a b => b.Probability.value ≤ a.Probability.value)) :
    s.filter (fun x => decide (T ≤ x.Probability.value))
      = s.take (s.filter (fun x => decide (T ≤ x.Probability.value))).length := by
  induction s with
  | nil => rfl
  | cons a s ih =>
    rw [List.pairwise_cons] at hd
    by_cases h : T ≤ a.Probability.value
    · rw [List.filter_cons_of_pos (by simpa using h), List.length_cons, List.take_succ_cons,
        ← ih hd.2]
    · have hnil : s.filter (fun x => decide (T ≤ x.Probability.value)) = [] := by
        rw [List.filter_eq_nil_iff]
        intro b hb hT
        have := hd.1 b hb
        exact h (le_trans (of_decide_eq_true hT) this)
      rw [List.filter_cons_of_neg (by simpa using h), hnil]
      rfl

/-- Two descending rearrangements of the same entries share their first `n + 1` entries,
up to order, when in one of them everything after is strictly below everything before. -/
theorem take_perm_of_strict_cut (s s' : Labels) (n : Nat) (hperm : s'.Perm s)
    (hd : s.Pairwise (fun a b => b.Probability.value ≤ a.Probability.value))
    (hd' : s'.Pairwise (fun a b => b.Probability.value ≤ a.Probability.value))
    (hn : n < s.length)
    (hcut : ∀ x ∈ s.drop (n + 1), ∀ y ∈ s.take (n + 1),
      x.Probability.value < y.Probability.value) :
    (s'.take (n + 1)).Perm (s.take (n + 1)) := by
  obtain ⟨T, hT1, hT2⟩ : ∃ T : Int, (∀ y ∈ s.take (n + 1), T ≤ y.Probability.value) ∧
      ∀ x ∈ s.drop (n + 1), x.Probability.value < T := by
    have hmem : s[n] ∈ s.take (n + 1) := by
      rw [List.mem_iff_getElem]
      exact ⟨n, by rw [List.length_take]; omega, by simp⟩
    refine ⟨s[n].Probability.value, ?_, fun x hx => hcut x hx _ hmem⟩
    intro y hy
    obtain ⟨i, hi, rfl⟩ := List.mem_iff_getElem.mp hy
    rw [List.length_take] at hi
    have hi' : i < s.length := by omega
    rw [List.getElem_take]
    rcases Nat.lt_or_ge i n with hlt | hge
    · exact List.pairwise_iff_getElem.mp hd i n hi' hn hlt
    · have : i = n := by omega
      subst this
      exact le_refl _
  have hfs : s.filter (fun x => decide (T ≤ x.Probability.value)) = s.take (n + 1) := by
    conv_lhs => rw [← List.take_append_drop (n + 1) s]
    rw [List.filter_append]
    have h1 : (s.take (n + 1)).filter (fun x => decide (T ≤ x.Probability.value))
        = s.take (n + 1) := by
      rw [List.filter_eq_self]
      exact fun y hy => decide_eq_true (hT1 y hy)
    have h2 : (s.drop (n + 1)).filter (fun x => decide (T ≤ x.Probability.value)) = [] := by
      rw [List.filter_eq_nil_iff]
      intro x hx hT
      exact absurd (of_decide_eq_true hT) (not_le.mpr (hT2 x hx))
    rw [h1, h2, List.append_nil]
  have hf := hperm.filter (fun x => decide (T ≤ x.Probability.value))
  rw [hfs] at hf
  have hlen : (s'.filter (fun x => decide (T ≤ x.Probability.value))).length = n + 1 := by
    rw [hf.length_eq, List.length_take]
    omega
  have ht := filter_eq_take_of_descending T s' hd'
  rw [hlen] at ht
  rw [← ht]
  exact hf

theorem zipWith_perm_of_zip_perm {labels labels' : List String}
    {probabilities probabilities' : List Float32}
    (h : (List.zip labels' probabilities').Perm (List.zip labels probabilities)) :
    (List.zipWith Label.mk labels' probabilities').Perm
      (List.zipWith Label.mk labels probabilities) := by
  rw [← List.map_uncurry_zip_eq_zipWith, ← List.map_uncurry_zip_eq_zipWith]
  exact h.map _

/-- The scenario of the specification under any routine that meets the contract of
`sort.Sort`: bird, cat, tree, dog and plane are returned, in some order, and car is not. -/
theorem scenario_top_five (sort : Labels → Labels) (hsort : SortContract sort) :
    ∃ top : List Label,
      getTopFiveLabels sort scenarioLabels scenarioProbabilities = .ok top ∧
      (top.map (fun l => l.Label)).Perm ["bird", "cat", "tree", "dog", "plane"] ∧
      "car" ∉ top.map (fun l => l.Label) := by
  have hs := (hsort (candidates scenarioLabels scenarioProbabilities).elems).1
  have hi := perm_sortByInsertion (candidates scenarioLabels scenarioProbabilities).elems
  have hn : NoNaN (candidates scenarioLabels scenarioProbabilities).elems :=
    noNaN_candidates scenarioLabels (by decide)
  have hcut : ∀ x ∈ (sortByInsertion
        (candidates scenarioLabels scenarioProbabilities).elems).drop (4 + 1),
      ∀ y ∈ (sortByInsertion (candidates scenarioLabels scenarioProbabilities).elems).take
        (4 + 1), x.Probability.value < y.Probability.value := by
    decide
  have hperm := take_perm_of_strict_cut _ _ 4 (hs.trans hi.symm)
    (descending_sortByInsertion _ hn) (hsort.descending _ hn) (by decide) hcut
  have hlabels := hperm.map (fun l => l.Label)
  refine ⟨_, getTopFiveLabels_eq_take sort scenarioLabels scenarioProbabilities hs.length_eq
    (by decide), hlabels, fun hcar => ?_⟩
  exact absurd (hlabels.mem_iff.mp hcar) (by decide)

/-- C6, amended: for inputs of equal length at least five without NaN, if every candidate
left out of the returned five has a strictly smaller probability than every returned entry
(no tie across the cut), then any consistent reordering of labels and probabilities yields
the same returned pairs, as a multiset and hence as a set. -/
theorem getTopFiveLabels_permuted (sort : Labels → Labels) (hsort : SortContract sort)
    (labels labels' : List String) (probabilities probabilities' : List Float32)
    (hlen : labels.length = probabilities.length)
    (hlen' : labels'.length = probabilities'.length) (h5 : 5 ≤ labels.length)
    (hperm : (List.zip labels' probabilities').Perm (List.zip labels probabilities))
    (hnan : ∀ p ∈ probabilities, p.isNaN = false) (top rest : List Label)
    (htop : getTopFiveLabels sort labels probabilities = .ok top)
    (hrest : (top ++ rest).Perm (List.zipWith Label.mk labels probabilities))
    (hcut : ∀ x ∈ rest, ∀ y ∈ top, y.Probability.gt x.Probability = true) :
    ∃ top' : List Label,
      getTopFiveLabels sort labels' probabilities' = .ok top' ∧ top'.Perm top ∧
      ∀ x, x ∈ top' ↔ x ∈ top := by
  have hs := (hsort (candidates labels probabilities).elems).1
  have hs' := (hsort (candidates labels' probabilities').elems).1
  have hc : (candidates labels' probabilities').elems.Perm
      (candidates labels probabilities).elems := by
    rw [candidates_elems, candidates_elems]
    exact zipWith_perm_of_zip_perm hperm
  have hl := length_candidates labels probabilities
  have hl' := length_candidates labels' probabilities'
  have hmin : 5 ≤ min labels.length probabilities.length := by omega
  have hmin' : 5 ≤ min labels'.length probabilities'.length := by
    rw [← hl', hc.length_eq, hl]
    exact hmin
  have hn := noNaN_candidates labels hnan
  have hn' : NoNaN (candidates labels' probabilities').elems :=
    fun x hx => hn x (hc.mem_iff.mp hx)
  have hd := hsort.descending _ hn
  have hd' := hsort.descending _ hn'
  have htake := getTopFiveLabels_eq_take sort labels probabilities hs.length_eq hmin
  rw [htop] at htake
  injection htake with htake
  subst htake
  have hrest' : rest.Perm ((sort (candidates labels probabilities).elems).drop 5) := by
    rw [← List.perm_append_left_iff ((sort (candidates labels probabilities).elems).take 5),
      List.take_append_drop]
    rw [← candidates_elems] at hrest
    exact hrest.trans hs.symm
  have hstrict : ∀ x ∈ (sort (candidates labels probabilities).elems).drop 5,
      ∀ y ∈ (sort (candidates labels probabilities).elems).take 5,
      x.Probability.value < y.Probability.value := by
    intro x hx y hy
    have h := hcut x (hrest'.mem_iff.mpr hx) y hy
    simp only [Float32.gt, Bool.and_eq_true, decide_eq_true_eq] at h
    exact h.2
  have hfinal := take_perm_of_strict_cut _ _ 4 ((hs'.trans hc).trans hs.symm) hd hd'
    (by rw [hs.length_eq, hl]; omega) hstrict
  exact ⟨_, getTopFiveLabels_eq_take sort labels' probabilities' hs'.length_eq hmin', hfinal,
    fun x => hfinal.mem_iff⟩

/-- The scenario, where car alone is left out and is strictly below the rest, against the
same input in reverse order. -/
theorem getTopFiveLabels_permuted_witness :
    ∃ top' : List Label,
      getTopFiveLabels sortByInsertion scenarioLabels.reverse scenarioProbabilities.reverse
        = .ok top' ∧
      top'.Perm [⟨"bird", ⟨false, 126, 3355443⟩⟩, ⟨"cat", ⟨false, 123, 5033165⟩⟩,
          ⟨"tree", ⟨false, 123, 5033165⟩⟩, ⟨"dog", ⟨false, 122, 5033165⟩⟩,
          ⟨"plane", ⟨false, 121, 7717519⟩⟩] ∧
      ∀ x, x ∈ top' ↔ x ∈ [⟨"bird", ⟨false, 126, 3355443⟩⟩, ⟨"cat", ⟨false, 123, 5033165⟩⟩,
          ⟨"tree", ⟨false, 123, 5033165⟩⟩, ⟨"dog", ⟨false, 122, 5033165⟩⟩,
          (⟨"plane", ⟨false, 121, 7717519⟩⟩ : Label)] :=
  getTopFiveLabels_permuted sortByInsertion sortContract_sortByInsertion scenarioLabels
    scenarioLabels.reverse scenarioProbabilities scenarioProbabilities.reverse
    (by decide) (by decide) (by decide) (by decide) (by decide) _
    [⟨"car", ⟨false, 121, 2348810⟩⟩] rfl (by decide) (by decide)

/-- C6 as stated fails on a tie across the cut and on a NaN, here under insertion sort,
which meets the contract of `sort.Sort`.  With the fifth and sixth probabilities equal,
exchanging the last two labels exchanges `e` for `f` in the result; with a NaN, rotating
the input by one place trades the pair of label `a` for the pair of label `f`. -/
theorem getTopFiveLabels_permuted_counterexample :
    SortContract sortByInsertion ∧
    (tieLabels.length = tieProbabilities.length ∧ 5 ≤ tieLabels.length ∧
      (List.zip tieLabelsSwapped tieProbabilities).Perm (List.zip tieLabels tieProbabilities) ∧
      ∃ top top' : List Label,
        getTopFiveLabels sortByInsertion tieLabels tieProbabilities = .ok top ∧
        getTopFiveLabels sortByInsertion tieLabelsSwapped tieProbabilities = .ok top' ∧
        (⟨"e", ⟨false, 123, 5033165⟩⟩ : Label) ∈ top ∧
        (⟨"e", ⟨false, 123, 5033165⟩⟩ : Label) ∉ top' ∧
        ¬ ∀ x, x ∈ top' ↔ x ∈ top) ∧
    (tieLabels.length = nanProbabilities.length ∧
      (List.zip tieLabelsRotated nanProbabilitiesRotated).Perm
        (List.zip tieLabels nanProbabilities) ∧
      ∃ top top' : List Label,
        getTopFiveLabels sortByInsertion tieLabels nanProbabilities = .ok top ∧
        getTopFiveLabels sortByInsertion tieLabelsRotated nanProbabilitiesRotated
          = .ok top' ∧
        (⟨"a", ⟨false, 255, 4194304⟩⟩ : Label) ∈ top ∧
        (⟨"a", ⟨false, 255, 4194304⟩⟩ : Label) ∉ top' ∧
        ¬ ∀ x, x ∈ top' ↔ x ∈ top) := by
  refine ⟨sortContract_sortByInsertion, ⟨by decide, by decide, by decide, ?_⟩,
    ⟨by decide, by decide, ?_⟩⟩
  · refine ⟨[⟨"a", ⟨false, 126, 3355443⟩⟩, ⟨"b", ⟨false, 126, 0⟩⟩,
        ⟨"c", ⟨false, 125, 5033165⟩⟩, ⟨"d", ⟨false, 125, 1677722⟩⟩,
        ⟨"e", ⟨false, 123, 5033165⟩⟩],
      [⟨"a", ⟨false, 126, 3355443⟩⟩, ⟨"b", ⟨false, 126, 0⟩⟩,
        ⟨"c", ⟨false, 125, 5033165⟩⟩, ⟨"d", ⟨false, 125, 1677722⟩⟩,
        ⟨"f", ⟨false, 123, 5033165⟩⟩], rfl, rfl, by decide, by decide, fun h => ?_⟩
    exact absurd ((h ⟨"e", ⟨false, 123, 5033165⟩⟩).mpr (by decide)) (by decide)
  · refine ⟨[⟨"a", ⟨false, 255, 4194304⟩⟩, ⟨"b", ⟨false, 126, 3355443⟩⟩,
        ⟨"c", ⟨false, 126, 0⟩⟩, ⟨"d", ⟨false, 125, 5033165⟩⟩,
        ⟨"e", ⟨false, 125, 1677722⟩⟩],
      [⟨"b", ⟨false, 126, 3355443⟩⟩, ⟨"c", ⟨false, 126, 0⟩⟩,
        ⟨"d", ⟨false, 125, 5033165⟩⟩, ⟨"e", ⟨false, 125, 1677722⟩⟩,
        ⟨"f", ⟨false, 123, 5033165⟩⟩], rfl, rfl, by decide, by decide, fun h => ?_⟩
    exact absurd ((h ⟨"a", ⟨false, 255, 4194304⟩⟩).mpr (by decide)) (by decide)

/-! ## The run of `main` -/

/-- C7: the stages of `main` run in program order and the first failing one is the last to
run.  The stages entered always form an initial segment of the program's stages; a run
that ends otherwise than by returning from `main` has written nothing to standard output
and has not reached the print stage; and for each stage, when the stages before it succeed
and it fails (an error for the first six, a panic for the ranking), the run stops there.
Result lines appear only when every stage, the ranking included, has succeeded. -/
theorem main_stops_at_first_failure (sort : Labels → Labels) (percent : Float32 → String)
    (env : Env) :
    (main sort percent env).stages <+: allStages ∧
    ((main sort percent env).exit ≠ .returned →
      (main sort percent env).stdout = [] ∧ Stage.print ∉ (main sort percent env).stages) ∧
    ((main sort percent env).stdout ≠ [] →
      (main sort percent env).exit = .returned ∧ (main sort percent env).stages = allStages) ∧
    (env.Args.length < 2 →
      (main sort percent env).stages = [.arguments] ∧ (main sort percent env).exit = .fatal) ∧
    (2 ≤ env.Args.length →
      (∀ err, env.httpGet (env.Args.getD 1 "") = .error err →
        (main sort percent env).stages = [.arguments, .fetch] ∧
        (main sort percent env).exit = .fatal) ∧
      ∀ resp, env.httpGet (env.Args.getD 1 "") = .ok resp →
      (∀ err, loadGraphAndLabels env = .error err →
        (main sort percent env).stages = [.arguments, .fetch, .load] ∧
        (main sort percent env).exit = .fatal) ∧
      ∀ modelGraph labels, loadGraphAndLabels env = .ok (modelGraph, labels) →
      (∀ err, env.newSession modelGraph = .error err →
        (main sort percent env).stages = [.arguments, .fetch, .load, .session] ∧
        (main sort percent env).exit = .fatal) ∧
      (env.newSession modelGraph = .ok () →
      (∀ err, normalizeImage env resp = .error err →
        (main sort percent env).stages = [.arguments, .fetch, .load, .session, .normalize] ∧
        (main sort percent env).exit = .fatal) ∧
      ∀ tensor, normalizeImage env resp = .ok tensor →
      (∀ err, env.sessionRun modelGraph [(⟨modelGraph.Operation "output", 0⟩, tensor)]
          ⟨modelGraph.Operation "output", 0⟩ = .error err →
        (main sort percent env).stages
          = [.arguments, .fetch, .load, .session, .normalize, .inference] ∧
        (main sort percent env).exit = .fatal) ∧
      ∀ result, env.sessionRun modelGraph [(⟨modelGraph.Operation "output", 0⟩, tensor)]
          ⟨modelGraph.Operation "output", 0⟩ = .ok result →
      (∀ p, (firstRow result).bind (getTopFiveLabels sort labels) = .error p →
        (main sort percent env).stages
          = [.arguments, .fetch, .load, .session, .normalize, .inference, .rank] ∧
        (main sort percent env).exit = .panicked p) ∧
      ∀ top, (firstRow result).bind (getTopFiveLabels sort labels) = .ok top →
        (main sort percent env).stages = allStages ∧
        (main sort percent env).exit = .returned ∧
        (main sort percent env).stdout = printLabels percent top)) := by
  by_cases hargs : env.Args.length < 2
  · simp [main, hargs, allStages]
  have hargs' : 2 ≤ env.Args.length := by omega
  rcases hget : env.httpGet (env.Args.getD 1 "") with err | resp
  · simp [-List.getD_eq_getElem?_getD, main, hargs, hargs', hget, allStages]
  rcases hload : loadGraphAndLabels env with err | ⟨modelGraph, labels⟩
  · simp [-List.getD_eq_getElem?_getD, main, hargs, hargs', hget, hload, allStages]
  rcases hsess : env.newSession modelGraph with err | u
  · simp [-List.getD_eq_getElem?_getD, main, hargs, hargs', hget, hload, hsess, allStages]
  rcases hnorm : normalizeImage env resp with err | tensor
  · simp [-List.getD_eq_getElem?_getD, main, hargs, hargs', hget, hload, hsess, hnorm,
      allStages]
  rcases hrun : env.sessionRun modelGraph [(⟨modelGraph.Operation "output", 0⟩, tensor)]
      ⟨modelGraph.Operation "output", 0⟩ with err | result
  · simp [-List.getD_eq_getElem?_getD, main, hargs, hargs', hget, hload, hsess, hnorm, hrun,
      allStages]
  rcases hrank : (firstRow result).bind (getTopFiveLabels sort labels) with p | top
  · simp [-List.getD_eq_getElem?_getD, main, hargs, hargs', hget, hload, hsess, hnorm, hrun,
      hrank, allStages]
  · simp [-List.getD_eq_getElem?_getD, main, hargs, hargs', hget, hload, hsess, hnorm, hrun,
      hrank, allStages]

/-- Three sample runs: a failing fetch stops the run after the second stage with nothing
printed; a labels file of three lines makes the ranking panic with nothing printed; and
when every stage succeeds the five result lines are printed. -/
theorem main_stops_at_first_failure_witness :
    ((main sortByInsertion (fun _ => "0.00")
          (sampleEnv (.error "timeout") ⟨scenarioLabels, none⟩)).stages
        = [.arguments, .fetch] ∧
      (main sortByInsertion (fun _ => "0.00")
          (sampleEnv (.error "timeout") ⟨scenarioLabels, none⟩)).stdout = []) ∧
    ((main sortByInsertion (fun _ => "0.00")
          (sampleEnv (.ok ⟨[], none⟩) ⟨scenarioLabels.take 3, none⟩)).stages
        = [.arguments, .fetch, .load, .session, .normalize, .inference, .rank] ∧
      (main sortByInsertion (fun _ => "0.00")
          (sampleEnv (.ok ⟨[], none⟩) ⟨scenarioLabels.take 3, none⟩)).exit
        = .panicked (.sliceBoundsOutOfRange 5 4) ∧
      (main sortByInsertion (fun _ => "0.00")
          (sampleEnv (.ok ⟨[], none⟩) ⟨scenarioLabels.take 3, none⟩)).stdout = []) ∧
    ((main sortByInsertion (fun _ => "0.00")
          (sampleEnv (.ok ⟨[], none⟩) ⟨scenarioLabels, none⟩)).stages = allStages ∧
      (main sortByInsertion (fun _ => "0.00")
          (sampleEnv (.ok ⟨[], none⟩) ⟨scenarioLabels, none⟩)).stdout
        = ["Label: bird, probability: 0.00%\n", "Label: cat, probability: 0.00%\n",
            "Label: tree, probability: 0.00%\n", "Label: dog, probability: 0.00%\n",
            "Label: plane, probability: 0.00%\n"]) := by
  refine ⟨?_, ?_, ?_⟩
  · have h := main_stops_at_first_failure sortByInsertion (fun _ => "0.00")
      (sampleEnv (.error "timeout") ⟨scenarioLabels, none⟩)
    have hfetch := (h.2.2.2.2 (by decide)).1 "timeout" rfl
    refine ⟨hfetch.1, (h.2.1 ?_).1⟩
    rw [hfetch.2]
    decide
  · have h := main_stops_at_first_failure sortByInsertion (fun _ => "0.00")
      (sampleEnv (.ok ⟨[], none⟩) ⟨scenarioLabels.take 3, none⟩)
    have hrank := ((((((h.2.2.2.2 (by decide)).2 ⟨[], none⟩ rfl).2 []
      (scenarioLabels.take 3) rfl).2 rfl).2 .other rfl).2
      (.matrix [scenarioProbabilities]) rfl).1 (.sliceBoundsOutOfRange 5 4) rfl
    refine ⟨hrank.1, hrank.2, (h.2.1 ?_).1⟩
    rw [hrank.2]
    decide
  · have h := main_stops_at_first_failure sortByInsertion (fun _ => "0.00")
      (sampleEnv (.ok ⟨[], none⟩) ⟨scenarioLabels, none⟩)
    have hprint := ((((((h.2.2.2.2 (by decide)).2 ⟨[], none⟩ rfl).2 []
      scenarioLabels rfl).2 rfl).2 .other rfl).2
      (.matrix [scenarioProbabilities]) rfl).2 _ rfl
    exact ⟨hprint.1, hprint.2.2⟩

/-! ## Graph construction and label loading -/

/-- C8: `getNormalizedGraph` ends without error, its input is the string placeholder, and
its output, read as an expression over that placeholder, is
`Sub(ResizeBilinear(ExpandDims(Cast(DecodeJpeg(input, channels = 3), Float), 0), [224, 224]), 117)`,
where the last constant is the `float32` that stands for 117 (`117 * 2^149` units of
`2^-149`).  The graph holds the nine nodes of this expression and no other. -/
theorem getNormalizedGraph_expression :
    getNormalizedGraph.2.2.2 = none ∧
    getNormalizedGraph.1.length = 9 ∧
    getNormalizedGraph.1.expr 9 getNormalizedGraph.2.1 = some (.Placeholder .String) ∧
    getNormalizedGraph.1.expr 9 getNormalizedGraph.2.2.1
      = some (.Sub
          (.ResizeBilinear
            (.ExpandDims
              (.Cast (.DecodeJpeg (.Placeholder .String) 3) .Float)
              (.Const (.int32 0)))
            (.Const (.int32s [224, 224])))
          (.Const (.float32 ⟨false, 133, 6946816⟩))) ∧
    (⟨false, 133, 6946816⟩ : Float32).isNaN = false ∧
    (⟨false, 133, 6946816⟩ : Float32).value = 117 * 2 ^ 149 := by
  refine ⟨rfl, rfl, rfl, rfl, rfl, ?_⟩
  set_option maxRecDepth 10000 in decide

/-- A labels file that cannot be opened makes `loadGraphAndLabels` fail with that error. -/
theorem loadGraphAndLabels_open_error (env : Env) (model : Bytes) (g : Graph) (err : String)
    (hread : env.readFile graphFile = .ok model) (himport : env.graphImport model = .ok g)
    (hopen : env.osOpen labelsFile = .error err) : loadGraphAndLabels env = .error err := by
  simp only [loadGraphAndLabels, hread, himport, hopen]

/-- Once the labels file is open, `loadGraphAndLabels` returns the tokens scanned, whatever
the scanner's `Err` reports. -/
theorem loadGraphAndLabels_scanned (env : Env) (model : Bytes) (g : Graph) (f : File)
    (hread : env.readFile graphFile = .ok model) (himport : env.graphImport model = .ok g)
    (hopen : env.osOpen labelsFile = .ok f) : loadGraphAndLabels env = .ok (g, f.scan.1) := by
  simp only [loadGraphAndLabels, hread, himport, hopen]

/-- C9, the failing run: the graph loads, the labels file opens, and the read after its
first line fails.  The scanner reports the error, yet `loadGraphAndLabels` returns without
error, with the one label read so far instead of the six lines of the file. -/
theorem loadGraphAndLabels_ignores_read_error :
    brokenLabelsFile.scan = (["cat"], some "read: input/output error") ∧
    brokenLabelsFile.lines = ["cat", "dog", "bird", "car", "plane", "tree"] ∧
    loadGraphAndLabels (sampleEnv (.ok ⟨[], none⟩) brokenLabelsFile) = .ok ([], ["cat"]) :=
  ⟨rfl, rfl, rfl⟩

/-! ## The comparator -/

/-- C10: on a slice without NaN and at valid indices, `Less(i, j)` is true exactly when the
value of entry `i` is greater than the value of entry `j`; it is irreflexive, asymmetric
and transitive; entries of equal probability are unordered both ways; and the outcome is
the same on any slice with the same probabilities, whatever its labels. -/
theorem Less_strict_descending (l : Labels) (hn : NoNaN l) (i j k : Nat) (a b c : Label)
    (ha : l[i]? = some a) (hb : l[j]? = some b) (hc : l[k]? = some c) :
    (∃ r, l.Less i j = .ok r ∧ (r = true ↔ b.Probability.value < a.Probability.value)) ∧
    l.Less i i = .ok false ∧
    ¬ (l.Less i j = .ok true ∧ l.Less j i = .ok true) ∧
    (l.Less i j = .ok true → l.Less j k = .ok true → l.Less i k = .ok true) ∧
    (a.Probability.eq b.Probability = true →
      l.Less i j = .ok false ∧ l.Less j i = .ok false) ∧
    ∀ l' : Labels, l'.map (fun x => x.Probability) = l.map (fun x => x.Probability) →
      l'.Less i j = l.Less i j := by
  have hna : a.Probability.isNaN = false := hn a (List.getElem?_mem ha)
  have hnb : b.Probability.isNaN = false := hn b (List.getElem?_mem hb)
  have hnc : c.Probability.isNaN = false := hn c (List.getElem?_mem hc)
  have hij : l.Less i j = .ok (decide (b.Probability.value < a.Probability.value)) := by
    simp only [Labels.Less, ha, hb, gt_eq_of_not_nan hna hnb]
  have hji : l.Less j i = .ok (decide (a.Probability.value < b.Probability.value)) := by
    simp only [Labels.Less, ha, hb, gt_eq_of_not_nan hnb hna]
  have hjk : l.Less j k = .ok (decide (c.Probability.value < b.Probability.value)) := by
    simp only [Labels.Less, hb, hc, gt_eq_of_not_nan hnb hnc]
  have hik : l.Less i k = .ok (decide (c.Probability.value < a.Probability.value)) := by
    simp only [Labels.Less, ha, hc, gt_eq_of_not_nan hna hnc]
  have hii : l.Less i i = .ok (decide (a.Probability.value < a.Probability.value)) := by
    simp only [Labels.Less, ha, gt_eq_of_not_nan hna hna]
  refine ⟨⟨_, hij, by simp⟩, ?_, ?_, ?_, ?_, ?_⟩
  · rw [hii]
    simp
  · rw [hij, hji]
    intro h
    have h1 : b.Probability.value < a.Probability.value := by simpa using h.1
    have h2 : a.Probability.value < b.Probability.value := by simpa using h.2
    exact absurd h1 (not_lt.mpr (le_of_lt h2))
  · rw [hij, hjk, hik]
    intro h1 h2
    have h1' : b.Probability.value < a.Probability.value := by simpa using h1
    have h2' : c.Probability.value < b.Probability.value := by simpa using h2
    have := lt_trans h2' h1'
    simpa using this
  · intro heq
    have hv : a.Probability.value = b.Probability.value := by
      simp only [Float32.eq, Bool.and_eq_true, decide_eq_true_eq] at heq
      exact heq.2
    rw [hij, hji, hv]
    simp
  · intro l' hl'
    have hget : ∀ n : Nat, (l'[n]?).map (fun x => x.Probability)
        = (l[n]?).map (fun x => x.Probability) := by
      intro n
      rw [← List.getElem?_map, ← List.getElem?_map, hl']
    have hi' := hget i
    have hj' := hget j
    rw [ha] at hi'
    rw [hb] at hj'
    rcases hai : l'[i]? with _ | a'
    · rw [hai] at hi'
      cases hi'
    rcases hbj : l'[j]? with _ | b'
    · rw [hbj] at hj'
      cases hj'
    rw [hai] at hi'
    rw [hbj] at hj'
    simp only [Option.map_some', Option.some.injEq] at hi' hj'
    simp only [Labels.Less, ha, hb, hai, hbj, hi', hj']

/-- The candidates of the scenario: bird (index 2) is above cat (index 0), which is above
dog (index 1); cat and tree (index 5) are equal and unordered. -/
theorem Less_strict_descending_witness :
    (Labels.Less scenarioCandidates 2 0 = .ok true ∧
      Labels.Less scenarioCandidates 0 1 = .ok true ∧
      Labels.Less scenarioCandidates 2 1 = .ok true ∧
      Labels.Less scenarioCandidates 2 2 = .ok false) ∧
    (Labels.Less scenarioCandidates 0 5 = .ok false ∧
      Labels.Less scenarioCandidates 5 0 = .ok false) := by
  have h := Less_strict_descending scenarioCandidates (by unfold NoNaN; decide) 2 0 1
    ⟨"bird", ⟨false, 126, 3355443⟩⟩ ⟨"cat", ⟨false, 123, 5033165⟩⟩
    ⟨"dog", ⟨false, 122, 5033165⟩⟩ rfl rfl rfl
  have h' := Less_strict_descending scenarioCandidates (by unfold NoNaN; decide) 0 5 0
    ⟨"cat", ⟨false, 123, 5033165⟩⟩ ⟨"tree", ⟨false, 123, 5033165⟩⟩
    ⟨"cat", ⟨false, 123, 5033165⟩⟩ rfl rfl rfl
  exact ⟨⟨rfl, rfl, h.2.2.2.1 rfl rfl, h.2.1⟩, h'.2.2.2.2.1 rfl⟩

end GoImageRecognition
